import Mathlib

/-!
Verification of the table-extraction and aggregation core of `src/main.rs`
(`generate_output`, `format_header` and the row-scanning loop inside
`generate_output`).

The shallow embedding below translates the Rust code:
* a `Cell` models a decoded `calamine::Data` value (only the variants the
  claims exercise: empty, string, number), with `asString` for
  `Data::as_string`, `isEmptyCell` for `ToCellDeserializer::is_empty`,
  and `display` for the `Display` conversion used on data rows;
* `processRow` is the body of the `for (row_idx, row) in r.rows().enumerate()`
  loop, threading the three per-document indices `table_header_row`,
  `table_end_row`, `remarks_start_row` and the run-wide `headers_set` flag;
* `runEntries` / `generate_output` drive the scan over the directory
  entries, modelling the `.xlsx` extension filter, the fatal `?` on
  `open_workbook`, and the silently-skipped `worksheet_range` failure.

Output is modelled as the list of written lines, each line kept as its
fields before comma-joining (`renderLine` performs the join exactly as the
`write!`/`writeln!` calls do).
-/

def DATA_START_ID : String := "Hole Number"

def DATA_END_ID : String := "Sub-Totals"

def REMARKS_START_ID : String := "Remarks"

/-- A decoded spreadsheet cell (`calamine::Data`), restricted to the
variants relevant here.  `num` stands for the numeric variants, whose
`as_string` is `Some` of their decimal rendering. -/
inductive Cell where
  | empty : Cell
  | str (s : String) : Cell
  | num (n : Int) : Cell
deriving DecidableEq

/-- `Data::as_string()`: `None` for `Empty`, `Some` of the text otherwise. -/
def Cell.asString : Cell → Option String
  | .empty => none
  | .str s => some s
  | .num n => some (toString n)

/-- `ToCellDeserializer::is_empty`: true exactly on `Data::Empty`. -/
def Cell.isEmptyCell : Cell → Bool
  | .empty => true
  | _ => false

/-- The `Display`/`to_string` conversion used when emitting a data row. -/
def Cell.display : Cell → String
  | .empty => ""
  | .str s => s
  | .num n => toString n

abbrev Row := List Cell

/-- `row.first().unwrap_or(&Data::Empty)`. -/
def firstCell (r : Row) : Cell := r.headD Cell.empty

/-- A single-character `str::replace` (all three patterns in
`format_header` are single characters, so `replace` is a character map). -/
def replaceChar (p r : Char) (s : String) : String :=
  String.mk (s.data.map (fun c => if c = p then r else c))

/-- `str::to_lowercase` on the ASCII range (the only range the scanned
sentinels and headers use). -/
def lowerAscii (s : String) : String := String.mk (s.data.map Char.toLower)

/-- `str::trim`: strip whitespace from both ends. -/
def trimEnds (s : String) : String :=
  String.mk (((s.data.dropWhile Char.isWhitespace).reverse.dropWhile
    Char.isWhitespace).reverse)

/-- `format_header` from `src/main.rs`: trim, lowercase, then replace each
space, hyphen and newline with an underscore. -/
def format_header (header : String) : String :=
  replaceChar '\n' '_' (replaceChar '-' '_' (replaceChar ' ' '_'
    (lowerAscii (trimEnds header))))

/-- The header-building closure inside the `DATA_START_ID` branch: walk the
header-start row left to right, forward-filling an empty main-header cell
from `prev` (the most recent non-empty main header), pairing with the
sub-header row cell at the same index, and normalizing. -/
def buildHeadersGo (subs : Row) : Nat → String → Row → List String
  | _, _, [] => []
  | i, prev, c :: rest =>
    let mainRaw := (Cell.asString c).getD ""
    let mainHdr := if mainRaw = "" then prev else mainRaw
    let subRaw := (subs[i]?.bind Cell.asString).getD ""
    let field := if subRaw = "" then format_header mainHdr
      else format_header (mainHdr ++ "_" ++ subRaw)
    field :: buildHeadersGo subs (i + 1) mainHdr rest

/-- The composite header built at a `DATA_START_ID` row at index `i`:
sub-headers come from row `i + 1` (`r.rows().nth(sub_header_row)`,
defaulting to the empty row), and the synthetic `date` field is pushed at
the end. -/
def buildHeaders (rows : List Row) (i : Nat) (row : Row) : List String :=
  buildHeadersGo (rows[i + 1]?.getD []) 0 "" row ++ ["date"]

/-- The three per-document scan indices of `generate_output`
(`table_header_row`, `table_end_row`, `remarks_start_row`), all starting
at `-1`. -/
structure ScanState where
  tableHeaderRow : Int
  tableEndRow : Int
  remarksStartRow : Int
deriving DecidableEq

def initState : ScanState := ⟨-1, -1, -1⟩

/-- One written output line: the run header (`headers.join(",")`) or one
data record (`row_data.join(",")` followed by `,{report_date}`). -/
inductive OutLine where
  | headerLine (fields : List String) : OutLine
  | dataLine (cells : List String) (prov : String) : OutLine
deriving DecidableEq

def isDataLine : OutLine → Bool
  | .dataLine _ _ => true
  | _ => false

/-- Number of comma-separated fields the line carries once rendered. -/
def lineFieldCount : OutLine → Nat
  | .headerLine fs => fs.length
  | .dataLine cells _ => cells.length + 1

/-- The text actually written for a line (without the newline). -/
def renderLine : OutLine → String
  | .headerLine fs => String.intercalate "," fs
  | .dataLine cells prov => String.intercalate "," cells ++ "," ++ prov

/-- The body of the row loop of `generate_output`, for row `row` at index
`i`: returns the updated scan indices, the updated `headers_set` flag and
the lines written while handling this row.  Branches in source order:
`DATA_START_ID` match, `DATA_END_ID` match, the `row_idx <= table_header_row`
skip, the remarks check, then the data-row emission guarded by
`table_header_row > 0 && table_end_row < 0` and a non-empty first cell. -/
def processRow (rows : List Row) (rd : String) (i : Nat) (row : Row)
    (s : ScanState) (hs : Bool) : ScanState × Bool × List OutLine :=
  if (firstCell row).asString = some DATA_START_ID then
    ({ s with tableHeaderRow := (i : Int) + 1 }, true,
      if hs then [] else [OutLine.headerLine (buildHeaders rows i row)])
  else if (firstCell row).asString = some DATA_END_ID then
    ({ s with tableEndRow := (i : Int) }, hs, [])
  else if (i : Int) ≤ s.tableHeaderRow then (s, hs, [])
  else if s.remarksStartRow < 0 ∧ (firstCell row).asString = some REMARKS_START_ID then
    ({ s with remarksStartRow := (i : Int) }, hs, [])
  else if s.tableHeaderRow > 0 ∧ s.tableEndRow < 0 then
    (if (firstCell row).isEmptyCell then (s, hs, [])
      else (s, hs, [OutLine.dataLine (row.map Cell.display) rd]))
  else (s, hs, [])

/-- The row loop itself: scan `l` (the suffix of `rows` starting at index
`i`), threading state and collecting written lines in order. -/
def scanRowsFrom (rows : List Row) (rd : String) :
    Bool → ScanState → Nat → List Row → ScanState × Bool × List OutLine
  | hs, s, _, [] => (s, hs, [])
  | hs, s, i, r :: rest =>
    let step := processRow rows rd i r s hs
    let next := scanRowsFrom rows rd step.2.1 step.1 (i + 1) rest
    (next.1, next.2.1, step.2.2 ++ next.2.2)

/-- `r.get((1, 0)).and_then(|d| d.as_string()).unwrap_or_default()`: the
per-document provenance value. -/
def reportDateOf (rows : List Row) : String :=
  ((rows[1]?.bind (fun r => r[0]?)).bind Cell.asString).getD ""

/-- Scan one decoded document from the start, with `hs` the run-wide
`headers_set` flag on entry. -/
def scanDoc (rows : List Row) (hs : Bool) : ScanState × Bool × List OutLine :=
  scanRowsFrom rows (reportDateOf rows) hs initState 0 rows

/-- An `.xlsx` file that opened as a workbook: its stem (file name without
extension) and its named worksheets, each an ordered list of rows. -/
structure XlsxFile where
  stem : String
  sheets : List (String × List Row)
deriving DecidableEq

/-- One directory entry as `generate_output` sees it: a file without the
`.xlsx` extension (filtered out), an `.xlsx` file on which `open_workbook`
fails (the `?` propagates), or a successfully opened workbook. -/
inductive Entry where
  | notXlsx : Entry
  | badWorkbook : Entry
  | wb (f : XlsxFile) : Entry
deriving DecidableEq

/-- The directory loop: returns the `headers_set` flag after the processed
prefix, the lines written, and whether the run finished without error.
`badWorkbook` aborts immediately (lines already written stay written);
a missing worksheet (`worksheet_range` error, here a failed lookup of the
stem among the sheet names) is skipped silently. -/
def runEntries : Bool → List Entry → Bool × List OutLine × Bool
  | hs, [] => (hs, [], true)
  | hs, Entry.notXlsx :: rest => runEntries hs rest
  | hs, Entry.badWorkbook :: _ => (hs, [], false)
  | hs, Entry.wb f :: rest =>
    match f.sheets.lookup f.stem with
    | none => runEntries hs rest
    | some rows =>
      let doc := scanDoc rows hs
      let next := runEntries doc.2.1 rest
      (next.1, doc.2.2 ++ next.2.1, next.2.2)

/-- `generate_output`: the lines written to the output file, in order, and
whether the function returned `Ok`. -/
def generate_output (entries : List Entry) : List OutLine × Bool :=
  ((runEntries false entries).2.1, (runEntries false entries).2.2)

/-! ## Closed-form description of the per-document scan

The next definitions restate the three scan indices as functions of the
row list and a position, independent of the fold.  `hdrBound rows i` is
the value `table_header_row` holds when row `i` is examined: `j + 1` for
the most recent `DATA_START_ID` row `j` before `i`, else `-1`; similarly
`endBound` tracks `table_end_row` and `remarksBound` tracks
`remarks_start_row` (recorded at the first `REMARKS_START_ID` row reached
strictly beyond the header bound of its moment).
-/

abbrev isStartAt (rows : List Row) (i : Nat) : Prop :=
  (firstCell (rows[i]?.getD [])).asString = some DATA_START_ID

abbrev isEndAt (rows : List Row) (i : Nat) : Prop :=
  (firstCell (rows[i]?.getD [])).asString = some DATA_END_ID

abbrev isRemarksAt (rows : List Row) (i : Nat) : Prop :=
  (firstCell (rows[i]?.getD [])).asString = some REMARKS_START_ID

def hdrBound (rows : List Row) : Nat → Int
  | 0 => -1
  | i + 1 => if isStartAt rows i then (i : Int) + 1 else hdrBound rows i

def endBound (rows : List Row) : Nat → Int
  | 0 => -1
  | i + 1 =>
    if isStartAt rows i then endBound rows i
    else if isEndAt rows i then (i : Int)
    else endBound rows i

def remarksBound (rows : List Row) : Nat → Int
  | 0 => -1
  | i + 1 =>
    if isStartAt rows i then remarksBound rows i
    else if isEndAt rows i then remarksBound rows i
    else if (i : Int) ≤ hdrBound rows i then remarksBound rows i
    else if remarksBound rows i < 0 ∧ isRemarksAt rows i then (i : Int)
    else remarksBound rows i

/-- The state transition of `processRow`, stripped of output. -/
def stateStep (i : Nat) (row : Row) (s : ScanState) : ScanState :=
  if (firstCell row).asString = some DATA_START_ID then
    { s with tableHeaderRow := (i : Int) + 1 }
  else if (firstCell row).asString = some DATA_END_ID then
    { s with tableEndRow := (i : Int) }
  else if (i : Int) ≤ s.tableHeaderRow then s
  else if s.remarksStartRow < 0 ∧ (firstCell row).asString = some REMARKS_START_ID then
    { s with remarksStartRow := (i : Int) }
  else s

/-- The scan state before row `i` of the document is examined. -/
def stateAt (rows : List Row) : Nat → ScanState
  | 0 => initState
  | i + 1 => stateStep i (rows[i]?.getD []) (stateAt rows i)

/-- The exact condition under which the row at index `i` is written as a
data record: its first cell matches neither sentinel, the header bound in
force at `i` is positive (some `DATA_START_ID` row occurred before `i`)
and strictly below `i`, no `DATA_END_ID` row occurred before `i`, the row
is not being recorded as the remarks row, and the first cell is
non-empty. -/
def emitSpec (rows : List Row) (i : Nat) : Bool :=
  decide ((firstCell (rows[i]?.getD [])).asString ≠ some DATA_START_ID
    ∧ (firstCell (rows[i]?.getD [])).asString ≠ some DATA_END_ID
    ∧ (i : Int) > hdrBound rows i
    ∧ ¬(remarksBound rows i < 0 ∧
        (firstCell (rows[i]?.getD [])).asString = some REMARKS_START_ID)
    ∧ hdrBound rows i > 0 ∧ endBound rows i < 0
    ∧ (firstCell (rows[i]?.getD [])).isEmptyCell = false)

/-- `idxList k n` is the list of indices `k, k+1, ..., k+n-1`. -/
def idxList : Nat → Nat → List Nat
  | _, 0 => []
  | k, n + 1 => k :: idxList (k + 1) n

/-- Index (and row) of the first `DATA_START_ID` row at or after `i`. -/
def firstStartFrom : Nat → List Row → Option (Nat × Row)
  | _, [] => none
  | i, r :: rest =>
    if (firstCell r).asString = some DATA_START_ID then some (i, r)
    else firstStartFrom (i + 1) rest

/-- Index of the first `DATA_END_ID` row at or after `i`. -/
def firstEndFrom : Nat → List Row → Option Nat
  | _, [] => none
  | i, r :: rest =>
    if (firstCell r).asString = some DATA_END_ID then some i
    else firstEndFrom (i + 1) rest

/-- The emission condition exactly as claim C1 words it: `i` strictly
greater than the header-sub-row index (the row right after the FIRST
`DATA_START_ID` row), `i` strictly before the first `DATA_END_ID` row (if
any), a non-empty first cell, and `i` not the recorded remarks-start
row. -/
def claimC1rhs (rows : List Row) (i : Nat) : Bool :=
  match firstStartFrom 0 rows with
  | none => false
  | some p =>
    decide ((i : Int) > (p.1 : Int) + 1)
    && (match firstEndFrom 0 rows with
        | none => true
        | some e => decide ((i : Int) < (e : Int)))
    && !(firstCell (rows[i]?.getD [])).isEmptyCell
    && decide ((i : Int) ≠ (scanDoc rows false).1.remarksStartRow)

/-- A document whose rows are `["Hole Number"], ["s"], ["Hole Number"],
["A"]`: a second header-start row inside the data region. -/
def docSecondStartData : List Row :=
  [[Cell.str "Hole Number"], [Cell.str "s"], [Cell.str "Hole Number"],
    [Cell.str "A"]]

/-- The composite header a lone document would produce: the first
`DATA_START_ID` row of the document, if any, run through `buildHeaders`. -/
def headerFieldsOf (rows : List Row) : Option (List String) :=
  (firstStartFrom 0 rows).map (fun p => buildHeaders rows p.1 p.2)

/-- The header line of the run, per the claim: the composite header of the
first entry (in order) that opens, resolves its worksheet and contains a
`DATA_START_ID` row — `none` when the run aborts or no entry qualifies. -/
def runHeader : List Entry → Option (List String)
  | [] => none
  | Entry.notXlsx :: rest => runHeader rest
  | Entry.badWorkbook :: _ => none
  | Entry.wb f :: rest =>
    match f.sheets.lookup f.stem with
    | none => runHeader rest
    | some rows =>
      match headerFieldsOf rows with
      | none => runHeader rest
      | some hsf => some hsf

/-- Every row of every worksheet of the entry has exactly `w` cells. -/
def entryRowsAll (w : Nat) : Entry → Bool
  | Entry.wb f => f.sheets.all (fun p => p.2.all (fun r => decide (r.length = w)))
  | _ => true

/-- A two-column document with a remarks row (index 2) between the
header block and an ordinary data row (index 3), then the terminator. -/
def docRemarksThenData : List Row :=
  [[Cell.str "Hole Number", Cell.str "Depth"], [Cell.str "a", Cell.str "b"],
    [Cell.str "Remarks", Cell.str ""], [Cell.str "H1", Cell.str "9"],
    [Cell.str "Sub-Totals", Cell.str ""]]

/-- A document whose sub-header row (index 1) itself starts with
"Remarks", followed by a second "Remarks" row (index 2) in the data
region. -/
def docSubheaderRemarks : List Row :=
  [[Cell.str "Hole Number", Cell.str "H"], [Cell.str "Remarks", Cell.str "p"],
    [Cell.str "Remarks", Cell.str "q"], [Cell.str "X", Cell.str "c"],
    [Cell.str "Sub-Totals", Cell.str ""]]

/-- A document with a recorded remarks row (index 2) followed by another
"Remarks" row (index 3) inside the data region. -/
def docLaterRemarks : List Row :=
  [[Cell.str "Hole Number", Cell.str "H"], [Cell.str "Remarks", Cell.str "p"],
    [Cell.str "Remarks", Cell.str "q"], [Cell.str "Remarks", Cell.str "r"],
    [Cell.str "X", Cell.str "c"], [Cell.str "Sub-Totals", Cell.str ""]]

/-- A one-column document: header-start, sub-header, one data row,
terminator. -/
def docNarrow : List Row :=
  [[Cell.str "Hole Number"], [Cell.str "s"], [Cell.str "H1"],
    [Cell.str "Sub-Totals"]]

/-- A two-column document with the same shape as `docNarrow`. -/
def docWide : List Row :=
  [[Cell.str "Hole Number", Cell.str "X"], [Cell.str "s2", Cell.str "t2"],
    [Cell.str "H2", Cell.str "7"], [Cell.str "Sub-Totals", Cell.str ""]]

/-- A workbook whose sheet list does not contain its own stem. -/
def fNoSheet : XlsxFile := ⟨"a", [("b", [[Cell.str "x"]])]⟩

/-- A workbook named "g" holding `docNarrow` under the sheet name "g". -/
def fNarrow : XlsxFile := ⟨"g", [("g", docNarrow)]⟩

/-! ## Theorems -/

theorem processRow_state (rows : List Row) (rd : String) (i : Nat) (row : Row)
    (s : ScanState) (hs : Bool) :
    (processRow rows rd i row s hs).1 = stateStep i row s := by
  unfold processRow stateStep
  by_cases h1 : (firstCell row).asString = some DATA_START_ID
  · rw [if_pos h1, if_pos h1]
  · rw [if_neg h1, if_neg h1]
    by_cases h2 : (firstCell row).asString = some DATA_END_ID
    · rw [if_pos h2, if_pos h2]
    · rw [if_neg h2, if_neg h2]
      by_cases h3 : (i : Int) ≤ s.tableHeaderRow
      · rw [if_pos h3, if_pos h3]
      · rw [if_neg h3, if_neg h3]
        by_cases h4 : s.remarksStartRow < 0 ∧
            (firstCell row).asString = some REMARKS_START_ID
        · rw [if_pos h4, if_pos h4]
        · rw [if_neg h4, if_neg h4]
          by_cases h5 : s.tableHeaderRow > 0 ∧ s.tableEndRow < 0
          · rw [if_pos h5]
            by_cases h6 : (firstCell row).isEmptyCell = true
            · rw [if_pos h6]
            · rw [if_neg h6]
          · rw [if_neg h5]

theorem stateAt_eq (rows : List Row) :
    ∀ i : Nat, stateAt rows i =
      ⟨hdrBound rows i, endBound rows i, remarksBound rows i⟩ := by
  intro i
  induction i with
  | zero => rfl
  | succ n ih =>
    simp only [stateAt, stateStep, hdrBound, endBound, remarksBound, ih]
    by_cases h1 : isStartAt rows n
    · rw [if_pos h1, if_pos h1, if_pos h1, if_pos h1]
    · rw [if_neg h1, if_neg h1, if_neg h1, if_neg h1]
      by_cases h2 : isEndAt rows n
      · rw [if_pos h2, if_pos h2, if_pos h2]
      · rw [if_neg h2, if_neg h2, if_neg h2]
        by_cases h3 : (n : Int) ≤ hdrBound rows n
        · rw [if_pos h3, if_pos h3]
        · rw [if_neg h3, if_neg h3]
          by_cases h4 : remarksBound rows n < 0 ∧ isRemarksAt rows n
          · rw [if_pos h4, if_pos h4]
          · rw [if_neg h4, if_neg h4]

theorem emitSpec_iff (rows : List Row) (i : Nat) :
    emitSpec rows i = true ↔
      ((firstCell (rows[i]?.getD [])).asString ≠ some DATA_START_ID
        ∧ (firstCell (rows[i]?.getD [])).asString ≠ some DATA_END_ID
        ∧ (i : Int) > hdrBound rows i
        ∧ ¬(remarksBound rows i < 0 ∧
            (firstCell (rows[i]?.getD [])).asString = some REMARKS_START_ID)
        ∧ hdrBound rows i > 0 ∧ endBound rows i < 0
        ∧ (firstCell (rows[i]?.getD [])).isEmptyCell = false) := by
  unfold emitSpec
  exact decide_eq_true_iff

theorem mem_idxList : ∀ (n k i : Nat), i ∈ idxList k n ↔ k ≤ i ∧ i < k + n := by
  intro n
  induction n with
  | zero => intro k i; simp [idxList]
  | succ m ih =>
    intro k i
    simp only [idxList, List.mem_cons, ih]
    omega

theorem processRow_filter (rows : List Row) (rd : String) (i : Nat) (row : Row)
    (s : ScanState) (hs : Bool) :
    (processRow rows rd i row s hs).2.2.filter isDataLine =
      if (firstCell row).asString ≠ some DATA_START_ID
          ∧ (firstCell row).asString ≠ some DATA_END_ID
          ∧ (i : Int) > s.tableHeaderRow
          ∧ ¬(s.remarksStartRow < 0 ∧
              (firstCell row).asString = some REMARKS_START_ID)
          ∧ s.tableHeaderRow > 0 ∧ s.tableEndRow < 0
          ∧ (firstCell row).isEmptyCell = false
        then [OutLine.dataLine (row.map Cell.display) rd] else [] := by
  unfold processRow
  split_ifs <;> simp_all [isDataLine] <;> omega

theorem scanRowsFrom_filter (rows : List Row) (rd : String) :
    ∀ (l : List Row) (k : Nat) (hs : Bool),
      (∀ m : Nat, l[m]? = rows[k + m]?) → rows.length = k + l.length →
      (scanRowsFrom rows rd hs (stateAt rows k) k l).2.2.filter isDataLine
        = ((idxList k l.length).filter (fun j => emitSpec rows j)).map
            (fun j => OutLine.dataLine ((rows[j]?.getD []).map Cell.display) rd) := by
  intro l
  induction l with
  | nil => intro k hs hag hlen; rfl
  | cons r rest ih =>
    intro k hs hag hlen
    have hr : rows[k]? = some r := by
      have h0 := hag 0
      simpa using h0.symm
    have hrowk : rows[k]?.getD [] = r := by rw [hr]; rfl
    have hstep :
        (scanRowsFrom rows rd hs (stateAt rows k) k (r :: rest)).2.2
          = (processRow rows rd k r (stateAt rows k) hs).2.2
            ++ (scanRowsFrom rows rd
                (processRow rows rd k r (stateAt rows k) hs).2.1
                (processRow rows rd k r (stateAt rows k) hs).1
                (k + 1) rest).2.2 := rfl
    rw [hstep, List.filter_append]
    have hnextstate : (processRow rows rd k r (stateAt rows k) hs).1
        = stateAt rows (k + 1) := by
      rw [processRow_state]
      show stateStep k r (stateAt rows k) = stateStep k (rows[k]?.getD []) (stateAt rows k)
      rw [hrowk]
    have hagrest : ∀ m : Nat, rest[m]? = rows[(k + 1) + m]? := by
      intro m
      have hm := hag (m + 1)
      have harith : k + (m + 1) = (k + 1) + m := by omega
      rw [harith] at hm
      simpa using hm
    have hlenrest : rows.length = (k + 1) + rest.length := by
      simp only [List.length_cons] at hlen
      omega
    rw [hnextstate, ih (k + 1) _ hagrest hlenrest]
    rw [processRow_filter]
    have hcond :
        ((firstCell r).asString ≠ some DATA_START_ID
          ∧ (firstCell r).asString ≠ some DATA_END_ID
          ∧ (k : Int) > (stateAt rows k).tableHeaderRow
          ∧ ¬((stateAt rows k).remarksStartRow < 0 ∧
              (firstCell r).asString = some REMARKS_START_ID)
          ∧ (stateAt rows k).tableHeaderRow > 0 ∧ (stateAt rows k).tableEndRow < 0
          ∧ (firstCell r).isEmptyCell = false)
        ↔ emitSpec rows k = true := by
      rw [emitSpec_iff, stateAt_eq, hrowk]
    show (if _ then _ else _) ++ _ = _
    have hidx : idxList k (r :: rest).length = k :: idxList (k + 1) rest.length := rfl
    rw [hidx]
    by_cases he : emitSpec rows k = true
    · rw [if_pos (hcond.mpr he)]
      simp only [List.filter_cons, he, if_true, List.map_cons, hrowk]
      rfl
    · rw [if_neg (fun hc => he (hcond.mp hc))]
      have hefalse : emitSpec rows k = false := by
        cases hcase : emitSpec rows k with
        | false => rfl
        | true => exact absurd hcase he
      simp only [List.filter_cons, hefalse, List.nil_append]
      rfl

theorem scanDoc_filter_eq (rows : List Row) (hs : Bool) :
    (scanDoc rows hs).2.2.filter isDataLine
      = ((idxList 0 rows.length).filter (fun j => emitSpec rows j)).map
          (fun j => OutLine.dataLine ((rows[j]?.getD []).map Cell.display)
            (reportDateOf rows)) := by
  have hag : ∀ m : Nat, rows[m]? = rows[0 + m]? := by intro m; simp
  have hlen : rows.length = 0 + rows.length := by simp
  exact scanRowsFrom_filter rows (reportDateOf rows) rows 0 hs hag hlen

/-- C1 is false as stated: in `docSecondStartData`, row 2 satisfies the
claim's emission condition (2 is after the header-sub-row 1, no terminator
exists, its first cell "Hole Number" is non-empty, and no remarks row is
recorded), yet the scan emits no data record at all — the second
`DATA_START_ID` row is consumed by the header branch, and it moves the
bound so that row 3 is also swallowed. -/
theorem c1_counterexample :
    claimC1rhs docSecondStartData 2 = true
    ∧ (scanDoc docSecondStartData false).2.2.filter isDataLine = [] := by
  decide

/-- C1 (amended): a row is emitted as a data record iff its first cell
matches neither `DATA_START_ID` nor `DATA_END_ID`, some `DATA_START_ID`
row occurs before it and its index strictly exceeds the bound
`hdrBound` — one past the MOST RECENT such row, not the first — no
`DATA_END_ID` row occurs before it, it is not being recorded as the
remarks row, and its first cell is non-empty; the emitted record carries
the row's display texts and the document's provenance value. -/
theorem c1_amended_data_emission (rows : List Row) (hs : Bool) :
    (scanDoc rows hs).2.2.filter isDataLine
      = ((idxList 0 rows.length).filter (fun j => emitSpec rows j)).map
          (fun j => OutLine.dataLine ((rows[j]?.getD []).map Cell.display)
            (reportDateOf rows)) :=
  scanDoc_filter_eq rows hs

/-- C4 is false as stated: in `docSecondStartData` the second
`DATA_START_ID` row (index 2) moves the recorded header bound to 3 — it
does not keep the value 1 set by the first occurrence — and consequently
row 3 is not classified as data. -/
theorem c4_counterexample :
    (scanDoc docSecondStartData false).1.tableHeaderRow = 3
    ∧ ¬ (scanDoc docSecondStartData false).1.tableHeaderRow = 1
    ∧ (scanDoc docSecondStartData false).2.2.filter isDataLine = [] := by
  decide

/-- C4 (amended): EVERY `DATA_START_ID` occurrence updates the recorded
header bound to its index plus one, and a header candidate is built (and
written) only when the run-wide `headers_set` flag is still false — later
occurrences regenerate nothing. -/
theorem c4_amended_start_row_step (rows : List Row) (rd : String) (i : Nat)
    (row : Row) (s : ScanState) (hs : Bool)
    (h : (firstCell row).asString = some DATA_START_ID) :
    processRow rows rd i row s hs
      = ({ s with tableHeaderRow := (i : Int) + 1 }, true,
          if hs then [] else [OutLine.headerLine (buildHeaders rows i row)]) := by
  unfold processRow
  rw [if_pos h]

theorem c4_amended_witness :
    processRow [] "" 2 [Cell.str "Hole Number"] ⟨1, -1, -1⟩ true
      = (⟨3, -1, -1⟩, true, []) := by
  have h := c4_amended_start_row_step [] "" 2 [Cell.str "Hole Number"]
    ⟨1, -1, -1⟩ true (by decide)
  exact h.trans (by decide)


theorem emit_mem_of_emitSpec (rows : List Row) (hs : Bool) (i : Nat)
    (hlen : i < rows.length) (hes : emitSpec rows i = true) :
    OutLine.dataLine ((rows[i]?.getD []).map Cell.display) (reportDateOf rows)
      ∈ (scanDoc rows hs).2.2 := by
  have hmem : i ∈ idxList 0 rows.length :=
    (mem_idxList rows.length 0 i).mpr ⟨Nat.zero_le i, by omega⟩
  have hinmap :
      OutLine.dataLine ((rows[i]?.getD []).map Cell.display) (reportDateOf rows)
        ∈ ((idxList 0 rows.length).filter (fun j => emitSpec rows j)).map
            (fun j => OutLine.dataLine ((rows[j]?.getD []).map Cell.display)
              (reportDateOf rows)) :=
    List.mem_map.mpr ⟨i, List.mem_filter.mpr ⟨hmem, hes⟩, rfl⟩
  rw [← scanDoc_filter_eq rows hs] at hinmap
  exact List.mem_of_mem_filter hinmap

/-- C2 is false as stated: in `docRemarksThenData` the remarks row is
recorded at index 2 and the terminator at index 4, yet row 3 — positioned
after the remarks row and before the terminator — IS emitted as a data
record. -/
theorem c2_counterexample :
    (scanDoc docRemarksThenData false).1.remarksStartRow = 2
    ∧ (scanDoc docRemarksThenData false).1.tableEndRow = 4
    ∧ (generate_output [Entry.wb ⟨"d", [("d", docRemarksThenData)]⟩]).1
      = [OutLine.headerLine ["hole_number_a", "depth_b", "date"],
          OutLine.dataLine ["H1", "9"] "a"] := by
  decide

/-- C2 (amended): a row positioned after the recorded remarks-start row
and before the terminator, with a non-empty, non-sentinel first cell and
an index beyond the header bound, IS emitted as a data record — the
remarks row suppresses only itself. -/
theorem c2_amended_post_remarks_emitted (rows : List Row) (hs : Bool) (i : Nat)
    (hlen : i < rows.length)
    (hrem : 0 ≤ remarksBound rows i)
    (h1 : (firstCell (rows[i]?.getD [])).asString ≠ some DATA_START_ID)
    (h2 : (firstCell (rows[i]?.getD [])).asString ≠ some DATA_END_ID)
    (h3 : (i : Int) > hdrBound rows i)
    (h4 : hdrBound rows i > 0)
    (h5 : endBound rows i < 0)
    (h6 : (firstCell (rows[i]?.getD [])).isEmptyCell = false) :
    OutLine.dataLine ((rows[i]?.getD []).map Cell.display) (reportDateOf rows)
      ∈ (scanDoc rows hs).2.2 := by
  have hes : emitSpec rows i = true :=
    (emitSpec_iff rows i).mpr
      ⟨h1, h2, h3, fun hc => absurd hc.1 (not_lt.mpr hrem), h4, h5, h6⟩
  exact emit_mem_of_emitSpec rows hs i hlen hes

theorem c2_amended_witness :
    OutLine.dataLine ["H1", "9"] "a" ∈ (scanDoc docRemarksThenData false).2.2 := by
  have h := c2_amended_post_remarks_emitted docRemarksThenData false 3
    (by decide) (by decide) (by decide) (by decide) (by decide) (by decide)
    (by decide) (by decide)
  have hcells : (docRemarksThenData[3]?.getD []).map Cell.display = ["H1", "9"] := by
    decide
  have hprov : reportDateOf docRemarksThenData = "a" := by decide
  rw [hcells, hprov] at h
  exact h

/-- C9 is false as stated: in `docSubheaderRemarks` the FIRST "Remarks"
row (index 1, the sub-header position) is skipped WITHOUT being recorded —
the recorded remarks row is index 2 — and that second "Remarks" row,
although it lies in the data region before the terminator, is NOT emitted
(only row 3's record appears in the output). -/
theorem c9_counterexample :
    (scanDoc docSubheaderRemarks false).1.remarksStartRow = 2
    ∧ (generate_output [Entry.wb ⟨"d", [("d", docSubheaderRemarks)]⟩]).1
      = [OutLine.headerLine ["hole_number_remarks", "h_p", "date"],
          OutLine.dataLine ["X", "c"] "Remarks"] := by
  decide

/-- C9 (amended): the recorded remarks row is the first "Remarks" row
reached strictly beyond the header bound in force at its index (a
"Remarks" row at or below the bound is skipped without recording); once
one is recorded, any LATER "Remarks" row in the data region is emitted as
an ordinary data record. -/
theorem c9_amended_later_remarks_emitted (rows : List Row) (hs : Bool) (i : Nat)
    (hlen : i < rows.length)
    (hrem : 0 ≤ remarksBound rows i)
    (hR : (firstCell (rows[i]?.getD [])).asString = some REMARKS_START_ID)
    (h3 : (i : Int) > hdrBound rows i)
    (h4 : hdrBound rows i > 0)
    (h5 : endBound rows i < 0) :
    OutLine.dataLine ((rows[i]?.getD []).map Cell.display) (reportDateOf rows)
      ∈ (scanDoc rows hs).2.2 := by
  have h1 : (firstCell (rows[i]?.getD [])).asString ≠ some DATA_START_ID := by
    rw [hR]; decide
  have h2 : (firstCell (rows[i]?.getD [])).asString ≠ some DATA_END_ID := by
    rw [hR]; decide
  have h6 : (firstCell (rows[i]?.getD [])).isEmptyCell = false := by
    cases hcell : firstCell (rows[i]?.getD []) with
    | empty => rw [hcell] at hR; simp [Cell.asString] at hR
    | str s => rfl
    | num n => rfl
  have hes : emitSpec rows i = true :=
    (emitSpec_iff rows i).mpr
      ⟨h1, h2, h3, fun hc => absurd hc.1 (not_lt.mpr hrem), h4, h5, h6⟩
  exact emit_mem_of_emitSpec rows hs i hlen hes

theorem c9_amended_witness :
    OutLine.dataLine ["Remarks", "r"] "Remarks"
      ∈ (scanDoc docLaterRemarks false).2.2 := by
  have h := c9_amended_later_remarks_emitted docLaterRemarks false 3
    (by decide) (by decide) (by decide) (by decide) (by decide) (by decide)
  have hcells : (docLaterRemarks[3]?.getD []).map Cell.display
      = ["Remarks", "r"] := by decide
  have hprov : reportDateOf docLaterRemarks = "Remarks" := by decide
  rw [hcells, hprov] at h
  exact h

/-- C3 is false as stated: with a document that fails `open_workbook`
followed by a perfectly good document, `generate_output` returns an error
and emits NOTHING — it does not skip the failing document and continue,
as the second conjunct shows it would have produced output on its own. -/
theorem c3_counterexample :
    generate_output [Entry.badWorkbook, Entry.wb fNarrow] = ([], false)
    ∧ generate_output [Entry.wb fNarrow]
      = ([OutLine.headerLine ["hole_number_s", "date"],
          OutLine.dataLine ["H1"] "s"], true) := by
  decide

/-- C3 (amended): when a document fails to open as a workbook, the `?` on
`open_workbook` makes the whole run fail: `generate_output` returns an
error, the lines already written for earlier documents remain, and no
later document is processed.  (Only a `worksheet_range` failure is
recovered locally.) -/
theorem c3_amended_open_failure_fatal (pre post : List Entry) :
    generate_output (pre ++ Entry.badWorkbook :: post)
      = ((generate_output pre).1, false) := by
  suffices h : ∀ hs, runEntries hs (pre ++ Entry.badWorkbook :: post)
      = ((runEntries hs pre).1, (runEntries hs pre).2.1, false) by
    show ((runEntries false (pre ++ Entry.badWorkbook :: post)).2.1,
        (runEntries false (pre ++ Entry.badWorkbook :: post)).2.2)
      = ((runEntries false pre).2.1, false)
    rw [h false]
  intro hs
  induction pre generalizing hs with
  | nil => rfl
  | cons e rest ih =>
    cases e with
    | notXlsx =>
      show runEntries hs (rest ++ Entry.badWorkbook :: post) = _
      rw [ih hs]
      rfl
    | badWorkbook => rfl
    | wb f =>
      cases hlk : f.sheets.lookup f.stem with
      | none =>
        simp only [List.cons_append, runEntries, hlk]
        exact ih hs
      | some rows =>
        simp only [List.cons_append, runEntries, hlk, List.append_eq, ih]

/-- C8: for a workbook whose sheet list has no worksheet named after the
file's stem, `worksheet_range` fails, the document is silently skipped and
the run is identical to the run without it. -/
theorem c8_missing_worksheet_skipped (pre post : List Entry) (f : XlsxFile)
    (h : f.sheets.lookup f.stem = none) :
    generate_output (pre ++ Entry.wb f :: post) = generate_output (pre ++ post) := by
  suffices hrun : ∀ hs, runEntries hs (pre ++ Entry.wb f :: post)
      = runEntries hs (pre ++ post) by
    show ((runEntries false (pre ++ Entry.wb f :: post)).2.1,
        (runEntries false (pre ++ Entry.wb f :: post)).2.2)
      = ((runEntries false (pre ++ post)).2.1,
        (runEntries false (pre ++ post)).2.2)
    rw [hrun false]
  intro hs
  induction pre generalizing hs with
  | nil =>
    simp only [List.nil_append, runEntries, h]
  | cons e rest ih =>
    cases e with
    | notXlsx =>
      show runEntries hs (rest ++ Entry.wb f :: post) = _
      rw [ih hs]
      rfl
    | badWorkbook => rfl
    | wb g =>
      cases hg : g.sheets.lookup g.stem with
      | none =>
        simp only [List.cons_append, runEntries, hg]
        exact ih hs
      | some rows =>
        simp only [List.cons_append, runEntries, hg, List.append_eq, ih]

theorem c8_witness :
    generate_output ([] ++ Entry.wb fNoSheet :: [Entry.wb fNarrow])
      = generate_output ([] ++ [Entry.wb fNarrow]) :=
  c8_missing_worksheet_skipped [] [Entry.wb fNarrow] fNoSheet (by decide)

/-- C7: header reconstruction forward-fills empty main-header cells from
the left, joins with the sub-header through an underscore, and normalizes
by trim + lowercase + replacing space, hyphen and newline with
underscores: the claim's two test vectors, with the synthetic `date`
provenance label appended by the code. -/
theorem c7_header_reconstruction :
    buildHeaders
      [[Cell.str "A", Cell.str "", Cell.str "B"],
        [Cell.str "x", Cell.str "y", Cell.str ""]] 0
      [Cell.str "A", Cell.str "", Cell.str "B"]
      = ["a_x", "a_y", "b"] ++ ["date"]
    ∧ format_header "Depth (m)" = "depth_(m)" := by
  decide

theorem buildHeadersGo_length (subs : Row) :
    ∀ (l : Row) (i : Nat) (prev : String),
      (buildHeadersGo subs i prev l).length = l.length := by
  intro l
  induction l with
  | nil => intro i prev; rfl
  | cons c rest ih =>
    intro i prev
    simp only [buildHeadersGo, List.length_cons]
    rw [ih]

theorem processRow_count (rows : List Row) (rd : String) (i : Nat) (row : Row)
    (s : ScanState) (hs : Bool) :
    ∀ x ∈ (processRow rows rd i row s hs).2.2,
      lineFieldCount x = row.length + 1 := by
  intro x hx
  unfold processRow at hx
  split_ifs at hx <;>
    simp_all [lineFieldCount, buildHeaders, buildHeadersGo_length]

theorem scanRowsFrom_count (rows : List Row) (rd : String) (w : Nat) :
    ∀ (l : List Row) (hs : Bool) (s : ScanState) (k : Nat),
      (∀ r ∈ l, r.length = w) →
      ∀ x ∈ (scanRowsFrom rows rd hs s k l).2.2, lineFieldCount x = w + 1 := by
  intro l
  induction l with
  | nil => intro hs s k hw x hx; simp [scanRowsFrom] at hx
  | cons r rest ih =>
    intro hs s k hw x hx
    have hdecomp : (scanRowsFrom rows rd hs s k (r :: rest)).2.2
        = (processRow rows rd k r s hs).2.2
          ++ (scanRowsFrom rows rd (processRow rows rd k r s hs).2.1
              (processRow rows rd k r s hs).1 (k + 1) rest).2.2 := rfl
    rw [hdecomp] at hx
    rcases List.mem_append.mp hx with hmem | hmem
    · have hcnt := processRow_count rows rd k r s hs x hmem
      rw [hcnt, hw r (List.mem_cons_self r rest)]
    · exact ih _ _ _ (fun r' hr' => hw r' (List.mem_cons_of_mem r hr')) x hmem

theorem lookup_sheets_mem :
    ∀ (l : List (String × List Row)) (k : String) (v : List Row),
      l.lookup k = some v → ∃ p ∈ l, p.2 = v := by
  intro l
  induction l with
  | nil => intro k v h; cases h
  | cons p rest ih =>
    intro k v h
    obtain ⟨a, b⟩ := p
    cases hc : (k == a) with
    | true =>
      rw [List.lookup, hc] at h
      exact ⟨(a, b), List.mem_cons_self _ _, Option.some.inj h⟩
    | false =>
      rw [List.lookup, hc] at h
      obtain ⟨q, hq, hv⟩ := ih k v h
      exact ⟨q, List.mem_cons_of_mem _ hq, hv⟩

theorem runEntries_count (w : Nat) :
    ∀ (entries : List Entry) (hs : Bool),
      (∀ e ∈ entries, entryRowsAll w e = true) →
      ∀ x ∈ (runEntries hs entries).2.1, lineFieldCount x = w + 1 := by
  intro entries
  induction entries with
  | nil => intro hs h x hx; simp [runEntries] at hx
  | cons e rest ih =>
    intro hs h x hx
    cases e with
    | notXlsx =>
      exact ih hs (fun e' he' => h e' (List.mem_cons_of_mem _ he')) x hx
    | badWorkbook => simp [runEntries] at hx
    | wb f =>
      cases hlk : f.sheets.lookup f.stem with
      | none =>
        simp only [runEntries, hlk] at hx
        exact ih hs (fun e' he' => h e' (List.mem_cons_of_mem _ he')) x hx
      | some rows =>
        simp only [runEntries, hlk] at hx
        rcases List.mem_append.mp hx with hmem | hmem
        · have hall : entryRowsAll w (Entry.wb f) = true :=
            h _ (List.mem_cons_self _ _)
          have hrows : ∀ r ∈ rows, r.length = w := by
            intro r hr
            obtain ⟨p, hp, hpv⟩ := lookup_sheets_mem f.sheets f.stem rows hlk
            have hsheet := List.all_eq_true.mp hall p hp
            rw [hpv] at hsheet
            have hcell := List.all_eq_true.mp hsheet r hr
            exact of_decide_eq_true hcell
          exact scanRowsFrom_count rows (reportDateOf rows) w rows hs initState 0
            hrows x hmem
        · exact ih (scanDoc rows hs).2.1
            (fun e' he' => h e' (List.mem_cons_of_mem _ he')) x hmem

/-- C5 is false as stated: a run over the one-column `docNarrow` (which
fixes the run's header, of 2 fields) followed by the two-column `docWide`
emits two data records with 2 and 3 comma-separated fields respectively —
they cannot both have `len(HeaderSpec)+1` fields. -/
theorem c5_counterexample :
    (generate_output [Entry.wb ⟨"a", [("a", docNarrow)]⟩,
        Entry.wb ⟨"b", [("b", docWide)]⟩]).1
      = [OutLine.headerLine ["hole_number_s", "date"],
          OutLine.dataLine ["H1"] "s", OutLine.dataLine ["H2", "7"] "s2"]
    ∧ lineFieldCount (OutLine.dataLine ["H1"] "s") = 2
    ∧ lineFieldCount (OutLine.dataLine ["H2", "7"] "s2") = 3 := by
  decide

/-- C5 (amended): every emitted line (header or data record) has exactly
`w + 1` comma-separated fields PROVIDED all rows of all worksheets of the
run share one width `w`; each data record generally has (cells of its own
source row) + 1 fields, so cross-document width differences break the
claimed invariant. -/
theorem c5_amended_uniform_width (entries : List Entry) (w : Nat)
    (h : ∀ e ∈ entries, entryRowsAll w e = true) :
    ∀ x ∈ (generate_output entries).1, lineFieldCount x = w + 1 :=
  runEntries_count w entries false h

theorem c5_amended_witness :
    lineFieldCount (OutLine.headerLine ["hole_number_s", "date"]) = 1 + 1 := by
  have h := c5_amended_uniform_width [Entry.wb fNarrow] 1
    (by intro e he; fin_cases he <;> decide)
  exact h _ (by decide)

theorem processRow_prov (rows : List Row) (rd : String) (i : Nat) (row : Row)
    (s : ScanState) (hs : Bool) :
    ∀ cells p, OutLine.dataLine cells p ∈ (processRow rows rd i row s hs).2.2 →
      p = rd := by
  intro cells p hp
  unfold processRow at hp
  split_ifs at hp <;> simp_all

theorem scanRowsFrom_prov (rows : List Row) (rd : String) :
    ∀ (l : List Row) (hs : Bool) (s : ScanState) (k : Nat) (cells : List String)
      (p : String),
      OutLine.dataLine cells p ∈ (scanRowsFrom rows rd hs s k l).2.2 → p = rd := by
  intro l
  induction l with
  | nil => intro hs s k cells p hp; simp [scanRowsFrom] at hp
  | cons r rest ih =>
    intro hs s k cells p hp
    have hdecomp : (scanRowsFrom rows rd hs s k (r :: rest)).2.2
        = (processRow rows rd k r s hs).2.2
          ++ (scanRowsFrom rows rd (processRow rows rd k r s hs).2.1
              (processRow rows rd k r s hs).1 (k + 1) rest).2.2 := rfl
    rw [hdecomp] at hp
    rcases List.mem_append.mp hp with hm | hm
    · exact processRow_prov rows rd k r s hs cells p hm
    · exact ih _ _ _ cells p hm

/-- C10: when the cell at row 1, column 0 is absent or has no string
value, the provenance defaults to the empty string, and every data record
of that document still carries the appended provenance field — rendering
as the cell texts followed by a trailing comma and nothing after it. -/
theorem c10_default_provenance (rows : List Row) (hs : Bool)
    (h : (rows[1]?.bind (fun r => r[0]?)).bind Cell.asString = none) :
    reportDateOf rows = ""
    ∧ ∀ cells p, OutLine.dataLine cells p ∈ (scanDoc rows hs).2.2 →
        p = "" ∧ renderLine (OutLine.dataLine cells p)
          = String.intercalate "," cells ++ "," := by
  have hrd : reportDateOf rows = "" := by
    unfold reportDateOf
    rw [h]
    rfl
  refine ⟨hrd, ?_⟩
  intro cells p hp
  have hpeq : p = reportDateOf rows :=
    scanRowsFrom_prov rows (reportDateOf rows) rows hs initState 0 cells p hp
  rw [hrd] at hpeq
  subst hpeq
  refine ⟨rfl, ?_⟩
  show String.intercalate "," cells ++ "," ++ "" = String.intercalate "," cells ++ ","
  exact String.append_empty _

theorem c10_witness :
    reportDateOf [[Cell.str "Hole Number"], [Cell.empty], [Cell.str "H1"]] = ""
    ∧ ("" = "" ∧ renderLine (OutLine.dataLine ["H1"] "")
        = String.intercalate "," ["H1"] ++ ",") := by
  have h := c10_default_provenance
    [[Cell.str "Hole Number"], [Cell.empty], [Cell.str "H1"]] false rfl
  exact ⟨h.1, h.2 ["H1"] "" (by decide)⟩

theorem processRow_true_facts (rows : List Row) (rd : String) (i : Nat)
    (row : Row) (s : ScanState) :
    (processRow rows rd i row s true).2.1 = true
    ∧ ∀ x ∈ (processRow rows rd i row s true).2.2, isDataLine x = true := by
  unfold processRow
  split_ifs <;> simp_all [isDataLine]

theorem processRow_nonstart_low (rows : List Row) (rd : String) (i : Nat)
    (row : Row) (s : ScanState) (hs : Bool)
    (h1 : ¬ ((firstCell row).asString = some DATA_START_ID))
    (h2 : s.tableHeaderRow ≤ 0) :
    (processRow rows rd i row s hs).1.tableHeaderRow ≤ 0
    ∧ (processRow rows rd i row s hs).2.1 = hs
    ∧ (processRow rows rd i row s hs).2.2 = [] := by
  unfold processRow
  rw [if_neg h1]
  by_cases h2e : (firstCell row).asString = some DATA_END_ID
  · rw [if_pos h2e]; exact ⟨h2, rfl, rfl⟩
  · rw [if_neg h2e]
    by_cases h3 : (i : Int) ≤ s.tableHeaderRow
    · rw [if_pos h3]; exact ⟨h2, rfl, rfl⟩
    · rw [if_neg h3]
      by_cases h4 : s.remarksStartRow < 0 ∧
          (firstCell row).asString = some REMARKS_START_ID
      · rw [if_pos h4]; exact ⟨h2, rfl, rfl⟩
      · rw [if_neg h4]
        have h5 : ¬ (s.tableHeaderRow > 0 ∧ s.tableEndRow < 0) := fun hc => by
          omega
        rw [if_neg h5]
        exact ⟨h2, rfl, rfl⟩

theorem scanRowsFrom_true (rows : List Row) (rd : String) :
    ∀ (l : List Row) (s : ScanState) (k : Nat),
      (scanRowsFrom rows rd true s k l).2.1 = true
      ∧ ∀ x ∈ (scanRowsFrom rows rd true s k l).2.2, isDataLine x = true := by
  intro l
  induction l with
  | nil => exact fun s k => ⟨rfl, fun x hx => by simp [scanRowsFrom] at hx⟩
  | cons r rest ih =>
    intro s k
    have hstep := processRow_true_facts rows rd k r s
    constructor
    · show (scanRowsFrom rows rd (processRow rows rd k r s true).2.1
          (processRow rows rd k r s true).1 (k + 1) rest).2.1 = true
      rw [hstep.1]
      exact (ih _ _).1
    · intro x hx
      have hdecomp : (scanRowsFrom rows rd true s k (r :: rest)).2.2
          = (processRow rows rd k r s true).2.2
            ++ (scanRowsFrom rows rd (processRow rows rd k r s true).2.1
                (processRow rows rd k r s true).1 (k + 1) rest).2.2 := rfl
      rw [hdecomp] at hx
      rcases List.mem_append.mp hx with hm | hm
      · exact hstep.2 x hm
      · rw [hstep.1] at hm
        exact (ih _ _).2 x hm

theorem scanRowsFrom_noStart (rows : List Row) (rd : String) :
    ∀ (l : List Row) (hs : Bool) (s : ScanState) (k : Nat),
      firstStartFrom k l = none → s.tableHeaderRow ≤ 0 →
      (scanRowsFrom rows rd hs s k l).2.1 = hs
      ∧ (scanRowsFrom rows rd hs s k l).2.2 = [] := by
  intro l
  induction l with
  | nil => intro hs s k hns hb; exact ⟨rfl, rfl⟩
  | cons r rest ih =>
    intro hs s k hns hb
    have hhead : ¬ ((firstCell r).asString = some DATA_START_ID) := by
      intro hc
      unfold firstStartFrom at hns
      rw [if_pos hc] at hns
      cases hns
    have hrest : firstStartFrom (k + 1) rest = none := by
      unfold firstStartFrom at hns
      rwa [if_neg hhead] at hns
    have hstep := processRow_nonstart_low rows rd k r s hs hhead hb
    have hrec := ih (processRow rows rd k r s hs).2.1
      (processRow rows rd k r s hs).1 (k + 1) hrest hstep.1
    constructor
    · show (scanRowsFrom rows rd (processRow rows rd k r s hs).2.1
          (processRow rows rd k r s hs).1 (k + 1) rest).2.1 = hs
      rw [hrec.1, hstep.2.1]
    · have hdecomp : (scanRowsFrom rows rd hs s k (r :: rest)).2.2
          = (processRow rows rd k r s hs).2.2
            ++ (scanRowsFrom rows rd (processRow rows rd k r s hs).2.1
                (processRow rows rd k r s hs).1 (k + 1) rest).2.2 := rfl
      rw [hdecomp, hstep.2.2, hrec.2]
      rfl

theorem scanRowsFrom_first_start (rows : List Row) (rd : String) :
    ∀ (l : List Row) (s : ScanState) (k j : Nat) (r0 : Row),
      firstStartFrom k l = some (j, r0) → s.tableHeaderRow ≤ 0 →
      ∃ rest', (scanRowsFrom rows rd false s k l).2.2
          = OutLine.headerLine (buildHeaders rows j r0) :: rest'
        ∧ (∀ x ∈ rest', isDataLine x = true)
        ∧ (scanRowsFrom rows rd false s k l).2.1 = true := by
  intro l
  induction l with
  | nil => intro s k j r0 hfs hb; cases hfs
  | cons r rest ih =>
    intro s k j r0 hfs hb
    by_cases hhead : (firstCell r).asString = some DATA_START_ID
    · have hjk : (k, r) = (j, r0) := by
        unfold firstStartFrom at hfs
        rw [if_pos hhead] at hfs
        exact Option.some.inj hfs
      have hj : k = j := congrArg Prod.fst hjk
      have hr0 : r = r0 := congrArg Prod.snd hjk
      subst hj
      subst hr0
      have hstep : processRow rows rd k r s false
          = ({ s with tableHeaderRow := (k : Int) + 1 }, true,
              [OutLine.headerLine (buildHeaders rows k r)]) := by
        unfold processRow
        rw [if_pos hhead]
        rfl
      refine ⟨(scanRowsFrom rows rd true
          ({ s with tableHeaderRow := (k : Int) + 1 }) (k + 1) rest).2.2,
        ?_, ?_, ?_⟩
      · have hdecomp : (scanRowsFrom rows rd false s k (r :: rest)).2.2
            = (processRow rows rd k r s false).2.2
              ++ (scanRowsFrom rows rd (processRow rows rd k r s false).2.1
                  (processRow rows rd k r s false).1 (k + 1) rest).2.2 := rfl
        rw [hdecomp, hstep]
        rfl
      · intro x hx
        exact (scanRowsFrom_true rows rd rest _ (k + 1)).2 x hx
      · show (scanRowsFrom rows rd (processRow rows rd k r s false).2.1
            (processRow rows rd k r s false).1 (k + 1) rest).2.1 = true
        rw [hstep]
        exact (scanRowsFrom_true rows rd rest _ (k + 1)).1
    · have hfs' : firstStartFrom (k + 1) rest = some (j, r0) := by
        unfold firstStartFrom at hfs
        rwa [if_neg hhead] at hfs
      have hstep := processRow_nonstart_low rows rd k r s false hhead hb
      obtain ⟨rest', hout, hdata, htrue⟩ :=
        ih (processRow rows rd k r s false).1 (k + 1) j r0 hfs' hstep.1
      refine ⟨rest', ?_, hdata, ?_⟩
      · have hdecomp : (scanRowsFrom rows rd false s k (r :: rest)).2.2
            = (processRow rows rd k r s false).2.2
              ++ (scanRowsFrom rows rd (processRow rows rd k r s false).2.1
                  (processRow rows rd k r s false).1 (k + 1) rest).2.2 := rfl
        rw [hdecomp, hstep.2.2, hstep.2.1, hout]
        rfl
      · show (scanRowsFrom rows rd (processRow rows rd k r s false).2.1
            (processRow rows rd k r s false).1 (k + 1) rest).2.1 = true
        rw [hstep.2.1, htrue]

theorem runEntries_true_all :
    ∀ entries : List Entry, (runEntries true entries).1 = true
      ∧ ∀ x ∈ (runEntries true entries).2.1, isDataLine x = true := by
  intro entries
  induction entries with
  | nil => exact ⟨rfl, fun x hx => by simp [runEntries] at hx⟩
  | cons e rest ih =>
    cases e with
    | notXlsx => exact ih
    | badWorkbook => exact ⟨rfl, fun x hx => by simp [runEntries] at hx⟩
    | wb f =>
      cases hlk : f.sheets.lookup f.stem with
      | none =>
        constructor
        · show (runEntries true (Entry.wb f :: rest)).1 = true
          simp only [runEntries, hlk]
          exact ih.1
        · intro x hx
          simp only [runEntries, hlk] at hx
          exact ih.2 x hx
      | some rows =>
        have hdoc := scanRowsFrom_true rows (reportDateOf rows) rows initState 0
        constructor
        · show (runEntries true (Entry.wb f :: rest)).1 = true
          simp only [runEntries, hlk]
          rw [show (scanDoc rows true).2.1 = true from hdoc.1]
          exact ih.1
        · intro x hx
          simp only [runEntries, hlk] at hx
          rcases List.mem_append.mp hx with hm | hm
          · exact hdoc.2 x hm
          · rw [show (scanDoc rows true).2.1 = true from hdoc.1] at hm
            exact ih.2 x hm

/-- C6: the run writes the header line exactly once — derived, via
`runHeader`, from the first entry (in enumeration order) that opens,
resolves its worksheet and contains a `DATA_START_ID` row — as the very
first output line, with every other output line a data record; when no
entry qualifies (or the run aborts first), no line at all is written, so
no later document ever produces a second header line. -/
theorem c6_header_once_first (entries : List Entry) :
    match runHeader entries with
    | none => (generate_output entries).1 = []
    | some hsf => ∃ rest, (generate_output entries).1
        = OutLine.headerLine hsf :: rest ∧ ∀ x ∈ rest, isDataLine x = true := by
  show match runHeader entries with
    | none => (runEntries false entries).2.1 = []
    | some hsf => ∃ rest, (runEntries false entries).2.1
        = OutLine.headerLine hsf :: rest ∧ ∀ x ∈ rest, isDataLine x = true
  induction entries with
  | nil => exact rfl
  | cons e rest ih =>
    cases e with
    | notXlsx => exact ih
    | badWorkbook => exact rfl
    | wb f =>
      cases hlk : f.sheets.lookup f.stem with
      | none =>
        have hrh : runHeader (Entry.wb f :: rest) = runHeader rest := by
          simp only [runHeader, hlk]
        have hre : (runEntries false (Entry.wb f :: rest)).2.1
            = (runEntries false rest).2.1 := by
          simp only [runEntries, hlk]
        rw [hrh, hre]
        exact ih
      | some rows =>
        cases hhf : headerFieldsOf rows with
        | none =>
          have hfs : firstStartFrom 0 rows = none := by
            unfold headerFieldsOf at hhf
            exact Option.map_eq_none'.mp hhf
          have hdoc := scanRowsFrom_noStart rows (reportDateOf rows) rows false
            initState 0 hfs (by decide)
          have hrh : runHeader (Entry.wb f :: rest) = runHeader rest := by
            simp only [runHeader, hlk, hhf]
          have hre : (runEntries false (Entry.wb f :: rest)).2.1
              = (runEntries false rest).2.1 := by
            simp only [runEntries, hlk]
            rw [show (scanDoc rows false).2.2 = [] from hdoc.2,
                show (scanDoc rows false).2.1 = false from hdoc.1]
            rfl
          rw [hrh, hre]
          exact ih
        | some hsf =>
          obtain ⟨p, hp, hbuild⟩ := Option.map_eq_some'.mp hhf
          obtain ⟨j, r0⟩ := p
          obtain ⟨docRest, hout, hdata, hhs⟩ :=
            scanRowsFrom_first_start rows (reportDateOf rows) rows initState 0
              j r0 hp (by decide)
          have hrh : runHeader (Entry.wb f :: rest) = some hsf := by
            simp only [runHeader, hlk, hhf]
          rw [hrh]
          have hre : (runEntries false (Entry.wb f :: rest)).2.1
              = (scanDoc rows false).2.2
                ++ (runEntries (scanDoc rows false).2.1 rest).2.1 := by
            simp only [runEntries, hlk]
          refine ⟨docRest ++ (runEntries true rest).2.1, ?_, ?_⟩
          · rw [hre, show (scanDoc rows false).2.1 = true from hhs,
              show (scanDoc rows false).2.2
                = OutLine.headerLine (buildHeaders rows j r0) :: docRest from hout,
              hbuild]
            rfl
          · intro x hx
            rcases List.mem_append.mp hx with hm | hm
            · exact hdata x hm
            · exact (runEntries_true_all rest).2 x hm
